import Mathlib

/-!
# scion-path-discovery: QUIC connection and socket layer

A shallow embedding of `packets/quicconn.go` (`QUICReliableConn`) and
`socket/quicsocket.go` (`QUICSocket`), and the properties of the message
framing, the metrics, the handshake and the connection lists.

Conventions of the embedding.

* A Go call either returns, panics, or never returns because it waits on the
  transport for ever; `Run` records which.
* The transport (quic-go, appnet, snet, gob) is outside the repository.  What
  it answers to each call is an input of the model: a `Stream` carries the
  script of the results of its successive `Read` and `Write` calls, a
  `Listener` the script of its `Accept` calls, and the remaining library
  functions are the fields of `Extern`.
* `*QUICReliableConn` is a pointer: connections live in a heap (a list, the
  address is the index) and the socket's two lists hold addresses.
-/

namespace ScionPathDiscovery

/-! ## Go values -/

/-- A Go `byte`. -/
abbrev Byte := Fin 256

/-- A non-nil Go `error` value; only its identity matters. -/
structure GoError where
  code : Nat
  deriving DecidableEq, Repr

/-- The run-time panics the modelled code can raise. -/
inductive Panic where
  | nilDeref
  | sliceBounds
  | indexRange
  | makeslice
  deriving DecidableEq, Repr

/-- How a Go call ends: it returns a value, it panics, or it never returns
(it waits for ever on the transport, or the process exits). -/
inductive Run (α : Type) where
  | ret (a : α)
  | panics (p : Panic)
  | blocks
  deriving DecidableEq, Repr

namespace Run

/-- Sequencing of two calls. -/
def bind {α β : Type} (r : Run α) (f : α → Run β) : Run β :=
  match r with
  | ret a => f a
  | panics p => panics p
  | blocks => blocks

instance : Monad Run where
  pure := Run.ret
  bind := Run.bind

end Run

/-- A call result of the shape `(T, error)`. -/
inductive Res (α : Type) where
  | ok (a : α)
  | err (e : GoError)
  deriving DecidableEq, Repr

/-! ## encoding/binary, big endian -/

/-- The Go conversion `byte(v)`. -/
def toByte (v : Nat) : Byte := ⟨v % 256, Nat.mod_lt _ (by decide)⟩

/-- The Go conversion `uint64(n)` of a non-negative `int`. -/
def toUint64 (n : Nat) : Nat := n % 2 ^ 64

/-- Go `binary.BigEndian.PutUint64(bts, v)` on an 8-byte slice: the eight
bytes stored, `b[0] = byte(v >> 56)` down to `b[7] = byte(v)`. -/
def PutUint64 (v : Nat) : List Byte :=
  [toByte (v >>> 56), toByte (v >>> 48), toByte (v >>> 40), toByte (v >>> 32),
   toByte (v >>> 24), toByte (v >>> 16), toByte (v >>> 8), toByte v]

/-- Go `binary.BigEndian.Uint64(b)`:
`uint64(b[7]) | uint64(b[6])<<8 | ... | uint64(b[0])<<56`; it panics when
`b` has fewer than eight bytes. -/
def Uint64 (b : List Byte) : Run Nat :=
  match b with
  | b0 :: b1 :: b2 :: b3 :: b4 :: b5 :: b6 :: b7 :: _ =>
    .ret (b7.val ||| b6.val <<< 8 ||| b5.val <<< 16 ||| b4.val <<< 24 |||
          b3.val <<< 32 ||| b2.val <<< 40 ||| b1.val <<< 48 ||| b0.val <<< 56)
  | _ => .panics .indexRange

/-! ## Slices -/

/-- The largest allocation of the Go runtime on a 64-bit platform
(`maxAlloc`, 2^48 bytes). -/
def maxAlloc : Nat := 2 ^ 48

/-- Go `make([]byte, n)` for a `uint64` length: a zeroed array of length and
capacity `n`; `makeslice` panics when `n` is out of range. -/
def makeBytes (n : Nat) : Run (List Byte) :=
  if n > maxAlloc then .panics .makeslice else .ret (List.replicate n 0)

/-- Go `copy(b[i:j], src)` on a slice `b` whose capacity is its length: the
slice expression panics unless `i ≤ j ≤ cap(b)`; then
`min(j - i, len(src))` bytes of `src` are stored from offset `i`. -/
def copyAt (b : List Byte) (i j : Nat) (src : List Byte) : Run (List Byte) :=
  if i ≤ j ∧ j ≤ b.length then
    let k := min (j - i) src.length
    .ret (b.take i ++ src.take k ++ b.drop (i + k))
  else .panics .sliceBounds

/-! ## The transport: quic.Stream -/

/-- What the transport hands to one `Read` call: the bytes that have arrived
and the error reported with them. -/
structure ReadResult where
  data : List Byte
  err : Option GoError
  deriving DecidableEq, Repr

/-- What the transport answers to one `Write` call: how many bytes it took
and the error it reports. -/
structure WriteResult where
  n : Nat
  err : Option GoError
  deriving DecidableEq, Repr

/-- A `quic.Stream`.  `reads` and `writes` script the results of the
successive `Read` and `Write` calls (an exhausted script: the call waits for
ever); `sent` are the bytes the transport has taken so far; `closeErr` is
what `Close` answers and `closeCalls` counts the `Close` calls. -/
structure Stream where
  reads : List ReadResult
  writes : List WriteResult
  sent : List Byte
  closeErr : Option GoError
  closeCalls : Nat
  deriving DecidableEq, Repr

namespace Stream

/-- Go `stream.Read(b)`: the next arrival is stored at the front of `b`.  When
it does not fit, `len(b)` bytes are stored and the rest stays buffered for the
next call.  Returns `(n, err)` and the buffer. -/
def Read (st : Stream) (b : List Byte) : Run ((Nat × Option GoError × List Byte) × Stream) :=
  match st.reads with
  | [] => .blocks
  | r :: rest =>
    if r.data.length ≤ b.length then
      .ret ((r.data.length, r.err, r.data ++ b.drop r.data.length), { st with reads := rest })
    else
      .ret ((b.length, none, r.data.take b.length),
            { st with reads := { r with data := r.data.drop b.length } :: rest })

/-- Go `stream.Write(b)`: the transport takes the first `n ≤ len(b)` bytes and
reports `(n, err)`. -/
def Write (st : Stream) (b : List Byte) : Run ((Nat × Option GoError) × Stream) :=
  match st.writes with
  | [] => .blocks
  | r :: rest =>
    let n := min r.n b.length
    .ret ((n, r.err), { st with writes := rest, sent := st.sent ++ b.take n })

/-- Go `stream.Close()`. -/
def Close (st : Stream) : Option GoError × Stream :=
  (st.closeErr, { st with closeCalls := st.closeCalls + 1 })

end Stream

/-! ## Addresses, paths and the rest of the transport -/

/-- An `snet.Path`: the descriptor of one network path, never interpreted. -/
structure Path where
  id : Nat
  deriving DecidableEq, Repr

/-- An `snet.UDPAddr`: ISD-AS, host address and port, and the path the
address carries (`none` when `addr.Path.IsEmpty()`). -/
structure UDPAddr where
  IA : Nat
  HostIP : Nat
  HostPort : Nat
  Path : Option Path
  deriving DecidableEq, Repr

/-- A `quic.Session`: what `OpenStreamSync` and `AcceptStream` answer on it. -/
structure Session where
  openStream : Res Stream
  acceptStream : Res Stream
  deriving DecidableEq, Repr

/-- A `quic.Listener`: the script of the results of its successive `Accept`
calls (exhausted: `Accept` waits for ever). -/
structure Listener where
  accepts : List (Res Session)
  deriving DecidableEq, Repr

/-- `PathMetrics` (declared in package `packets`, outside the sources at hand):
the four counters `Read` and `Write` update.  The byte counters are `int64` by
the conversion `int64(n)` in the source; so are the packet counters here. -/
structure PathMetrics where
  ReadBytes : Int
  ReadPackets : Int
  WrittenBytes : Int
  WrittenPackets : Int
  deriving DecidableEq, Repr

/-- Arithmetic on `int64` wraps around. -/
def wrapInt64 (x : Int) : Int := (x + 2 ^ 63) % 2 ^ 64 - 2 ^ 63

/-- What the transport answers while `QUICReliableConn.Dial` runs:
`appnet.Listen(nil)` (its error, if any) and `quic.Dial` on the address. -/
structure DialEnv where
  appnetListen : Option GoError
  quicDial : UDPAddr → Res Session

/-- What the transport answers while `QUICReliableConn.Listen` runs:
`appnet.Listen(&udpAddr)` (its error, if any) and `quic.Listen`. -/
structure ListenEnv where
  appnetListen : Option GoError
  quicListen : Res Listener

/-! ## packets/quicconn.go: QUICReliableConn -/

/-- The struct `QUICReliableConn`; a nil interface or pointer field is
`none`, `Ready` tells whether the channel has been made. -/
structure QUICReliableConn where
  internalConn : Option Stream
  listener : Option Listener
  session : Option Session
  path : Option Path
  peer : String
  remote : Option UDPAddr
  state : Int
  metrics : PathMetrics
  local_ : Option UDPAddr
  Ready : Bool
  deriving DecidableEq, Repr

namespace QUICReliableConn

/-- The zero value `QUICReliableConn{}`. -/
def zero : QUICReliableConn :=
  { internalConn := none, listener := none, session := none, path := none, peer := "",
    remote := none, state := 0, metrics := ⟨0, 0, 0, 0⟩, local_ := none, Ready := false }

/-- The method `Read`.  With no stream attached it receives from `Ready`, and
in a sequential run nothing is ever sent there: the call does not return.
Otherwise one transport read; the counters are updated only when it reports
no error. -/
def Read (qc : QUICReliableConn) (b : List Byte) :
    Run ((Nat × Option GoError × List Byte) × QUICReliableConn) :=
  match qc.internalConn with
  | none => .blocks
  | some st => do
    let ((n, err, b), st) ← st.Read b
    let qc := { qc with internalConn := some st }
    if err ≠ none then
      return ((n, err, b), qc)
    let qc := { qc with metrics := { qc.metrics with
      ReadBytes := wrapInt64 (qc.metrics.ReadBytes + n) } }
    let qc := { qc with metrics := { qc.metrics with
      ReadPackets := wrapInt64 (qc.metrics.ReadPackets + 1) } }
    return ((n, err, b), qc)

/-- The method `Write`: one transport write, then both write counters are
updated, whatever the transport reported. -/
def Write (qc : QUICReliableConn) (b : List Byte) :
    Run ((Nat × Option GoError) × QUICReliableConn) :=
  match qc.internalConn with
  | none => .panics .nilDeref
  | some st => do
    let ((n, err), st) ← st.Write b
    let qc := { qc with internalConn := some st }
    let qc := { qc with metrics := { qc.metrics with
      WrittenBytes := wrapInt64 (qc.metrics.WrittenBytes + n) } }
    let qc := { qc with metrics := { qc.metrics with
      WrittenPackets := wrapInt64 (qc.metrics.WrittenPackets + 1) } }
    if err ≠ none then
      return ((n, err), qc)
    return ((n, err), qc)

/-- The method `WriteStream`. -/
def WriteStream (qc : QUICReliableConn) (b : List Byte) :
    Run ((Nat × Option GoError) × QUICReliableConn) := do
  let bts := PutUint64 (toUint64 b.length)
  let ((n, err), qc) ← qc.Write bts
  if err ≠ none then
    return ((n, err), qc)
  let ((n, err), qc) ← qc.Write b
  return ((n, err), qc)

/-- The `for i < len` loop of `ReadStream`; `err` is the enclosing function's
`err`, returned when the loop ends.  The first argument bounds the number of
iterations; a loop that exceeds it has not returned. -/
def ReadStream.loop : Nat → QUICReliableConn → Nat → Option GoError → List Byte → List Byte →
    Nat → Run ((Nat × Option GoError) × QUICReliableConn × List Byte)
  | 0, _, _, _, _, _, _ => .blocks
  | fuel + 1, qc, len, err, buf, b, i =>
    if i < len then do
      let ((n, err', buf), qc) ← qc.Read buf
      if err' ≠ none then
        return ((i, err'), qc, b)
      let b ← copyAt b i (i + n) buf
      ReadStream.loop fuel qc len err buf b (i + n)
    else
      return ((i, err), qc, b)

/-- The number of `Read` calls a stream can answer before it has nothing left:
one for each arrival and one for each byte of it. -/
def readBudget (qc : QUICReliableConn) : Nat :=
  match qc.internalConn with
  | none => 0
  | some st => (st.reads.map fun r => r.data.length + 1).sum

/-- The method `ReadStream(b)`.  The result is `(n, err)`, the contents of the
caller's array after the call, and the connection.  The assignment
`b = make([]byte, len)` rebinds the parameter to a fresh array, so the chunks
are copied there and the caller's array is left as it was.  The loop is given
more iterations than the stream has reads to answer. -/
def ReadStream (qc : QUICReliableConn) (b : List Byte) :
    Run ((Nat × Option GoError) × List Byte × QUICReliableConn) := do
  let caller := b
  let bts ← makeBytes 8
  let ((n, err, bts), qc) ← qc.Read bts
  if err ≠ none then
    return ((n, err), caller, qc)
  let len ← Uint64 bts
  let buf ← makeBytes 9000
  let b ← makeBytes len
  let (r, qc, _) ← ReadStream.loop (readBudget qc + 1) qc len err buf b 0
  return (r, caller, qc)

/-- The method `Close`. -/
def Close (qc : QUICReliableConn) : Run (Option GoError × QUICReliableConn) :=
  match qc.internalConn with
  | none => .panics .nilDeref
  | some st =>
    let (err, st) := st.Close
    .ret (err, { qc with internalConn := some st })

/-- The method `Dial(addr, path)`; `addrString` is `snet.UDPAddr.String`.
`appnet.SetPath` stores the path in an address that carries none. -/
def Dial (qc : QUICReliableConn) (addrString : UDPAddr → String) (env : DialEnv)
    (addr : UDPAddr) (path : Path) : Option GoError × QUICReliableConn :=
  match env.appnetListen with
  | some err => (some err, qc)
  | none =>
    let addr := if addr.Path.isNone then { addr with Path := some path } else addr
    let qc := { qc with peer := addrString addr }
    let qc := { qc with path := some path }
    match env.quicDial addr with
    | .err err => (some err, qc)
    | .ok session =>
      let qc := { qc with session := some session }
      match session.openStream with
      | .err err => (some err, qc)
      | .ok stream =>
        let qc := { qc with internalConn := some stream }
        (none, qc)

/-- The method `AcceptStream`: `Accept` on the listener, then `AcceptStream`
on the accepted session. -/
def AcceptStream (qc : QUICReliableConn) : Run (Res Stream × QUICReliableConn) :=
  match qc.listener with
  | none => .panics .nilDeref
  | some l =>
    match l.accepts with
    | [] => .blocks
    | r :: rest =>
      let qc := { qc with listener := some { accepts := rest } }
      match r with
      | .err err => .ret (.err err, qc)
      | .ok session =>
        match session.acceptStream with
        | .err err => .ret (.err err, qc)
        | .ok stream => .ret (.ok stream, qc)

/-- The method `Listen(addr)`.  The `log.Debugf` call evaluates
`listener.Addr()` before `err` is looked at, so a failed `quic.Listen` ends in
a nil dereference. -/
def Listen (qc : QUICReliableConn) (env : ListenEnv) (addr : UDPAddr) :
    Run (Option GoError × QUICReliableConn) :=
  let qc := { qc with Ready := true }
  let qc := { qc with local_ := some addr }
  match env.appnetListen with
  | some err => .ret (some err, qc)
  | none =>
    match env.quicListen with
    | .err _ => .panics .nilDeref
    | .ok listener =>
      let qc := { qc with listener := some listener }
      .ret (none, qc)

/-- The method `GetMetrics`. -/
def GetMetrics (qc : QUICReliableConn) : PathMetrics := qc.metrics

/-- The method `GetPath`. -/
def GetPath (qc : QUICReliableConn) : Option Path := qc.path

/-- The method `SetPath`. -/
def SetPath (qc : QUICReliableConn) (path : Path) : QUICReliableConn :=
  { qc with path := some path }

/-- The method `SetLocal`. -/
def SetLocal (qc : QUICReliableConn) (loc : UDPAddr) : QUICReliableConn :=
  { qc with local_ := some loc }

/-- The method `SetStream`. -/
def SetStream (qc : QUICReliableConn) (stream : Stream) : QUICReliableConn :=
  { qc with internalConn := some stream }

end QUICReliableConn

/-! ## socket/quicsocket.go: QUICSocket -/

/-- The struct `DialPacketQuic`, the handshake packet. -/
structure DialPacketQuic where
  Addr : UDPAddr
  Path : Path
  deriving DecidableEq, Repr

/-- The struct `DialOptions` (declared in package `socket`, outside the sources
at hand); `Dial` reads its field `SendAddrPacket`. -/
structure DialOptions where
  SendAddrPacket : Bool
  deriving DecidableEq, Repr

/-- The library functions and the constant the socket uses and the sources at
hand do not contain: `snet.ParseUDPAddr`, `snet.UDPAddr.String`, the gob
encoder (`gobEncode p` is what `enc.Encode(p)` leaves in the buffer, and its
error) and decoder, and `packets.PACKET_SIZE`. -/
structure Extern where
  ParseUDPAddr : String → Res UDPAddr
  addrString : UDPAddr → String
  gobEncode : DialPacketQuic → List Byte × Option GoError
  gobDecode : List Byte → Res DialPacketQuic
  PACKET_SIZE : Nat

/-- A `*packets.QUICReliableConn`: an address in the heap. -/
abbrev ConnPtr := Nat

/-- The struct `QUICSocket` (the fields `transportConstructor` and
`acceptedConns` are never used). -/
structure QUICSocket where
  listenConns : List ConnPtr
  local_ : String
  localAddr : Option UDPAddr
  dialConns : List ConnPtr
  deriving DecidableEq, Repr

/-- The state of a run: the connections allocated so far, the socket, and the
record of the `Close` calls made on connections, in order. -/
structure World where
  heap : List QUICReliableConn
  sock : QUICSocket
  closeCalls : List ConnPtr
  deriving DecidableEq, Repr

namespace World

/-- The allocation `&packets.QUICReliableConn{}`. -/
def alloc (w : World) : ConnPtr × World :=
  (w.heap.length, { w with heap := w.heap ++ [QUICReliableConn.zero] })

/-- A method call through a pointer: the connection is loaded, the method runs
on it, the connection is stored back. -/
def call {α : Type} (w : World) (p : ConnPtr)
    (f : QUICReliableConn → Run (α × QUICReliableConn)) : Run (α × World) :=
  match w.heap[p]? with
  | none => .panics .nilDeref
  | some c =>
    match f c with
    | .ret (a, c) => .ret (a, { w with heap := w.heap.set p c })
    | .panics e => .panics e
    | .blocks => .blocks

end World

/-- The function `NewQUICSocket(local)`. -/
def NewQUICSocket (loc : String) : World :=
  { heap := [],
    sock := { listenConns := [], local_ := loc, localAddr := none, dialConns := [] },
    closeCalls := [] }

namespace QUICSocket

/-- The method `Listen`.  The new connection is appended to `listenConns`
before its `Listen` is called. -/
def Listen (x : Extern) (env : ListenEnv) (w : World) : Run (Option GoError × World) :=
  match x.ParseUDPAddr w.sock.local_ with
  | .err err => .ret (some err, w)
  | .ok lAddr =>
    let w := { w with sock := { w.sock with localAddr := some lAddr } }
    let (conn, w) := w.alloc
    let w := { w with sock := { w.sock with listenConns := w.sock.listenConns ++ [conn] } }
    match w.sock.localAddr with
    | none => .panics .nilDeref
    | some la => w.call conn fun c => c.Listen env la

/-- One iteration of the accept loop that `WaitForDialIn` and `DialAll` start
with `go func(listenConn)`.  `first` tells whether the task still has to attach
its first stream to `s.listenConns[0]` (the task of `DialAll` starts so, the
task of `WaitForDialIn` does not).  When `AcceptStream` has nothing to answer
the task waits and nothing changes; when it fails, `log.Fatalf` ends the
process. -/
def acceptStep (listenConn : ConnPtr) (first : Bool) (w : World) : Run (Bool × World) :=
  match w.heap[listenConn]? with
  | none => .panics .nilDeref
  | some c =>
    match c.AcceptStream with
    | .blocks => .ret (first, w)
    | .panics e => .panics e
    | .ret (.err _, _) => .blocks
    | .ret (.ok stream, c) =>
      let w := { w with heap := w.heap.set listenConn c }
      if first then
        match w.sock.listenConns with
        | [] => .panics .indexRange
        | p0 :: _ =>
          match w.call p0 fun c => .ret ((), c.SetStream stream) with
          | .ret (_, w) => .ret (false, w)
          | .panics e => .panics e
          | .blocks => .blocks
      else
        let (newConn, w) := w.alloc
        match w.sock.localAddr with
        | none => .panics .nilDeref
        | some la =>
          match w.call newConn fun c => .ret ((), (c.SetLocal la).SetStream stream) with
          | .ret (_, w) =>
            .ret (false,
              { w with sock := { w.sock with listenConns := w.sock.listenConns ++ [newConn] } })
          | .panics e => .panics e
          | .blocks => .blocks

/-- The accept loop scheduled for `k` iterations. -/
def acceptSteps (listenConn : ConnPtr) : Nat → Bool → World → Run (Bool × World)
  | 0, first, w => .ret (first, w)
  | k + 1, first, w =>
    match acceptStep listenConn first w with
    | .ret (first, w) => acceptSteps listenConn k first w
    | .panics e => .panics e
    | .blocks => .blocks

/-- The method `WaitForDialIn(wait)`; the result is `(*snet.UDPAddr, error)`.
`bg` is the number of iterations the accept loop completes between its start
and the handshake read.  `stream` is by then the stream of `s.listenConns[0]`,
where the read is done (a transport read, not the connection's `Read`). -/
def WaitForDialIn (x : Extern) (bg : Nat) (w : World) (wait : Bool) :
    Run (Res (Option UDPAddr) × World) :=
  let bts : List Byte := List.replicate x.PACKET_SIZE 0
  match w.sock.listenConns with
  | [] => .panics .indexRange
  | p0 :: _ =>
    match w.call p0 fun c => c.AcceptStream with
    | .panics e => .panics e
    | .blocks => .blocks
    | .ret (.err err, w) => .ret (.err err, w)
    | .ret (.ok stream, w) =>
      match w.call p0 fun c => .ret ((), c.SetStream stream) with
      | .panics e => .panics e
      | .blocks => .blocks
      | .ret (_, w) =>
        match acceptSteps p0 bg false w with
        | .panics e => .panics e
        | .blocks => .blocks
        | .ret (_, w) =>
          if wait then
            match w.call p0 fun c =>
                match c.internalConn with
                | none => .panics .nilDeref
                | some st =>
                  match st.Read bts with
                  | .ret (r, st) => .ret (r, { c with internalConn := some st })
                  | .panics e => .panics e
                  | .blocks => .blocks with
            | .panics e => .panics e
            | .blocks => .blocks
            | .ret ((_, some err, _), w) => .ret (.err err, w)
            | .ret ((_, none, bts), w) =>
              match x.gobDecode bts with
              | .err err => .ret (.err err, w)
              | .ok p =>
                match w.sock.listenConns with
                | [] => .panics .indexRange
                | q0 :: _ =>
                  match w.call q0 fun c => .ret ((), c.SetPath p.Path) with
                  | .panics e => .panics e
                  | .blocks => .blocks
                  | .ret (_, w) => .ret (.ok (some p.Addr), w)
          else .ret (.ok none, w)

/-- The method `Dial(remote, path, options)`; the result is the new
connection or the error.  The result of the handshake `Write` is dropped. -/
def Dial (x : Extern) (env : DialEnv) (w : World) (remote : UDPAddr) (path : Path)
    (options : DialOptions) : Run (Res ConnPtr × World) :=
  let (conn, w) := w.alloc
  match w.sock.localAddr with
  | none => .panics .nilDeref
  | some la =>
    match w.call conn fun c => .ret ((), c.SetLocal la) with
    | .panics e => .panics e
    | .blocks => .blocks
    | .ret (_, w) =>
      match w.call conn fun c => .ret (c.Dial x.addrString env remote path) with
      | .panics e => .panics e
      | .blocks => .blocks
      | .ret (some err, w) => .ret (.err err, w)
      | .ret (none, w) =>
        if options.SendAddrPacket then
          let p : DialPacketQuic := { Addr := la, Path := path }
          let (network, err) := x.gobEncode p
          match w.call conn fun c => c.Write network with
          | .panics e => .panics e
          | .blocks => .blocks
          | .ret (_, w) =>
            match err with
            | some err => .ret (.err err, w)
            | none =>
              .ret (.ok conn,
                { w with sock := { w.sock with dialConns := w.sock.dialConns ++ [conn] } })
        else
          .ret (.ok conn,
            { w with sock := { w.sock with dialConns := w.sock.dialConns ++ [conn] } })

/-- The `for _, v := range path` loop of `DialAll`: `i` counts the paths dialed
so far, `envs i` is what the transport answers to the dial of path `i`, and
`bg i` the number of iterations of the accept loop scheduled before it. -/
def DialAll.loop (x : Extern) (envs : Nat → DialEnv) (bg : Nat → Nat) (listenConn : ConnPtr)
    (remote : UDPAddr) (options : DialOptions) :
    Nat → Bool → List Path → World → List ConnPtr → Run (Res (List ConnPtr) × World)
  | _, _, [], w, conns => .ret (.ok conns, w)
  | i, first, v :: rest, w, conns =>
    match acceptSteps listenConn (bg i) first w with
    | .panics e => .panics e
    | .blocks => .blocks
    | .ret (first, w) =>
      match Dial x (envs i) w remote v options with
      | .panics e => .panics e
      | .blocks => .blocks
      | .ret (.err err, w) => .ret (.err err, w)
      | .ret (.ok conn, w) =>
        DialAll.loop x envs bg listenConn remote options (i + 1) first rest w (conns ++ [conn])

/-- The method `DialAll(remote, path, options)`. -/
def DialAll (x : Extern) (envs : Nat → DialEnv) (bg : Nat → Nat) (w : World)
    (remote : UDPAddr) (path : List Path) (options : DialOptions) :
    Run (Res (List ConnPtr) × World) :=
  match w.sock.listenConns with
  | [] => .panics .indexRange
  | listenConn :: _ =>
    let conns : List ConnPtr := [listenConn]
    DialAll.loop x envs bg listenConn remote options 0 true path w conns

/-- The method `GetConnections`: no field of the socket is assigned. -/
def GetConnections (w : World) : List ConnPtr × World :=
  let conns : List ConnPtr := []
  let conns := w.sock.listenConns.foldl (fun conns v => conns ++ [v]) conns
  let conns := w.sock.dialConns.foldl (fun conns v => conns ++ [v]) conns
  (conns, w)

/-- The method `GetDialConnections`: no field of the socket is assigned. -/
def GetDialConnections (w : World) : List ConnPtr × World :=
  let conns : List ConnPtr := []
  let conns := w.sock.dialConns.foldl (fun conns v => conns ++ [v]) conns
  (conns, w)

/-- The `for _, con := range s.dialConns` loop of `CloseAll`. -/
def CloseAll.loop : List ConnPtr → World → List GoError → Run (List GoError × World)
  | [], w, errors => .ret (errors, w)
  | con :: rest, w, errors =>
    match w.call con fun c => c.Close with
    | .panics e => .panics e
    | .blocks => .blocks
    | .ret (err, w) =>
      let w := { w with closeCalls := w.closeCalls ++ [con] }
      match err with
      | some err => CloseAll.loop rest w (errors ++ [err])
      | none => CloseAll.loop rest w errors

/-- The method `CloseAll`. -/
def CloseAll (w : World) : Run (List GoError × World) :=
  CloseAll.loop w.sock.dialConns w []

end QUICSocket

/-! ## Definitions used in the statements -/

/-- The value a call returns, seen through `f`. -/
def Run.map {α β : Type} (f : α → β) (r : Run α) : Run β :=
  match r with
  | .ret a => .ret (f a)
  | .panics p => .panics p
  | .blocks => .blocks

/-- What `Close` answers on the connection at `p`. -/
def closeErrAt (heap : List QUICReliableConn) (p : ConnPtr) : Option GoError :=
  match heap[p]? with
  | none => none
  | some c =>
    match c.internalConn with
    | none => none
    | some st => st.closeErr

/-- The connection `c` after `n` more `Close` calls on its stream. -/
def closedTimes (n : Nat) (c : QUICReliableConn) : QUICReliableConn :=
  match c.internalConn with
  | none => c
  | some st => { c with internalConn := some { st with closeCalls := st.closeCalls + n } }

/-- A connection whose stream has the read script `rs` and the write script `ws`. -/
def connOn (rs : List ReadResult) (ws : List WriteResult) : QUICReliableConn :=
  { QUICReliableConn.zero with
    internalConn := some { reads := rs, writes := ws, sent := [], closeErr := none, closeCalls := 0 } }

namespace QUICSocket

/-- What `Dial` does to the connection it allocates, as a function of the
socket's local address alone: `SetLocal`, the connection's `Dial`, and the
handshake write.  The result is the error `Dial` returns, if any. -/
def dialBody (x : Extern) (env : DialEnv) (la remote : UDPAddr) (path : Path)
    (options : DialOptions) : Run (Option GoError × QUICReliableConn) :=
  match (QUICReliableConn.zero.SetLocal la).Dial x.addrString env remote path with
  | (some err, c) => .ret (some err, c)
  | (none, c) =>
    if options.SendAddrPacket then
      match c.Write (x.gobEncode { Addr := la, Path := path }).1 with
      | .ret (_, c) => .ret ((x.gobEncode { Addr := la, Path := path }).2, c)
      | .panics e => .panics e
      | .blocks => .blocks
    else .ret (none, c)

end QUICSocket

/-! ## Concrete inputs -/

/-- A stream nothing has been sent on, with the given scripts. -/
def streamOn (rs : List ReadResult) (ws : List WriteResult) (closeErr : Option GoError) : Stream :=
  { reads := rs, writes := ws, sent := [], closeErr := closeErr, closeCalls := 0 }

/-- A small codec standing in for gob in concrete runs: six bytes, the fields
of the packet one byte each; a field that does not fit in a byte is an
encoding error. -/
def byteCodecEncode (p : DialPacketQuic) : List Byte × Option GoError :=
  let pathFlag : Nat := if p.Addr.Path.isSome then 1 else 0
  let pathId : Nat := match p.Addr.Path with
    | some q => q.id
    | none => 0
  if p.Addr.IA < 256 ∧ p.Addr.HostIP < 256 ∧ p.Addr.HostPort < 256 ∧ pathId < 256 ∧
      p.Path.id < 256 then
    ([toByte p.Addr.IA, toByte p.Addr.HostIP, toByte p.Addr.HostPort, toByte pathFlag,
      toByte pathId, toByte p.Path.id], none)
  else ([], some ⟨1⟩)

/-- The decoder of the small codec: it reads the first six bytes. -/
def byteCodecDecode (b : List Byte) : Res DialPacketQuic :=
  match b with
  | ia :: ip :: port :: flag :: pid :: path :: _ =>
    .ok { Addr := { IA := ia.val, HostIP := ip.val, HostPort := port.val,
                    Path := if flag.val = 1 then some ⟨pid.val⟩ else none },
          Path := ⟨path.val⟩ }
  | _ => .err ⟨2⟩

/-- Library functions for concrete runs: every address string parses to the
same address, and the handshake packet goes through the small codec. -/
def demoExtern : Extern :=
  { ParseUDPAddr := fun _ => .ok { IA := 17, HostIP := 127, HostPort := 80, Path := none },
    addrString := fun _ => "addr",
    gobEncode := byteCodecEncode,
    gobDecode := byteCodecDecode,
    PACKET_SIZE := 16 }

/-- The local address of `demoExtern`. -/
def demoLocal : UDPAddr := { IA := 17, HostIP := 127, HostPort := 80, Path := none }

/-- A remote address. -/
def demoRemote : UDPAddr := { IA := 18, HostIP := 10, HostPort := 81, Path := none }

/-- A transport on which a dial succeeds: the stream opened takes one write in
full, and `Close` on it answers `closeErr`. -/
def dialOkEnv (closeErr : Option GoError) : DialEnv :=
  { appnetListen := none,
    quicDial := fun _ =>
      .ok { openStream := .ok (streamOn [] [⟨16, none⟩] closeErr),
            acceptStream := .err ⟨3⟩ } }

/-- A transport on which `quic.Dial` fails. -/
def dialFailEnv : DialEnv :=
  { appnetListen := none, quicDial := fun _ => .err ⟨4⟩ }

/-- A socket that has parsed its local address and holds no connection. -/
def dialerWorld : World :=
  { heap := [],
    sock := { listenConns := [], local_ := "addr", localAddr := some demoLocal, dialConns := [] },
    closeCalls := [] }

/-- A socket with three dial-side connections; `Close` fails on the second. -/
def threeDialed : World :=
  { heap := [{ QUICReliableConn.zero with internalConn := some (streamOn [] [] none) },
             { QUICReliableConn.zero with internalConn := some (streamOn [] [] (some ⟨5⟩)) },
             { QUICReliableConn.zero with internalConn := some (streamOn [] [] none) }],
    sock := { listenConns := [], local_ := "addr", localAddr := some demoLocal,
              dialConns := [0, 1, 2] },
    closeCalls := [] }

/-- A transport on which `Listen` succeeds; the listener will hand out two
sessions, each delivering a stream. -/
def listenOkEnv : ListenEnv :=
  { appnetListen := none,
    quicListen := .ok { accepts :=
      [.ok { openStream := .err ⟨3⟩, acceptStream := .ok (streamOn [] [] none) },
       .ok { openStream := .err ⟨3⟩, acceptStream := .ok (streamOn [] [] none) }] } }

/-- The fresh socket after a successful `Listen` on `listenOkEnv`. -/
def listeningWorld : World :=
  { heap := [{ QUICReliableConn.zero with
               listener := some { accepts :=
                 [.ok { openStream := .err ⟨3⟩, acceptStream := .ok (streamOn [] [] none) },
                  .ok { openStream := .err ⟨3⟩, acceptStream := .ok (streamOn [] [] none) }] },
               local_ := some demoLocal, Ready := true }],
    sock := { listenConns := [0], local_ := "addr", localAddr := some demoLocal, dialConns := [] },
    closeCalls := [] }

/-- A listening socket whose listener will hand out one session; the stream it
delivers carries the six bytes of a handshake packet in its first read. -/
def dialedInWorld : World :=
  { heap := [{ QUICReliableConn.zero with
               listener := some { accepts :=
                 [.ok { openStream := .err ⟨3⟩,
                        acceptStream := .ok (streamOn [⟨[17, 127, 80, 0, 0, 7], none⟩] [] none) }] },
               local_ := some demoRemote, Ready := true }],
    sock := { listenConns := [0], local_ := "remote", localAddr := some demoRemote,
              dialConns := [] },
    closeCalls := [] }

/-! ## Invariants of the accept loop -/

/-- Every session the listener will hand out delivers a stream. -/
def Listener.allDeliver (l : Listener) : Prop :=
  ∀ r ∈ l.accepts, ∃ s st, r = Res.ok s ∧ s.acceptStream = Res.ok st

/-- The accept loop on `listenConn` cannot fail in `w`: `listenConn` is the
first listen-side connection, it has a listener, every session the listener
will hand out delivers a stream, and the socket has its local address. -/
structure AcceptsOk (listenConn : ConnPtr) (w : World) : Prop where
  head : ∃ ls, w.sock.listenConns = listenConn :: ls
  listener : ∃ c l, w.heap[listenConn]? = some c ∧ c.listener = some l ∧ l.allDeliver
  la : ∃ la, w.sock.localAddr = some la

/-- What a step that is not a `Close` keeps, `w` before and `w'` after: the
dial-side list, the local address, the record of `Close` calls, and every
connection already allocated other than `listenConn`. -/
structure Keeps (listenConn : ConnPtr) (w w' : World) : Prop where
  dial : w'.sock.dialConns = w.sock.dialConns
  la : w'.sock.localAddr = w.sock.localAddr
  close : w'.closeCalls = w.closeCalls
  heap : ∀ p, p ≠ listenConn → p < w.heap.length → w'.heap[p]? = w.heap[p]?
  len : w.heap.length ≤ w'.heap.length

/-! ## Auxiliary facts -/

theorem foldl_append_singleton {α : Type} (l init : List α) :
    l.foldl (fun conns v => conns ++ [v]) init = init ++ l := by
  induction l generalizing init with
  | nil => simp
  | cons a l ih => simp [ih]

theorem closedTimes_zero (c : QUICReliableConn) : closedTimes 0 c = c := by
  unfold closedTimes
  cases h : c.internalConn with
  | none => rfl
  | some st =>
    cases c
    simp at h
    simp [h]

theorem closedTimes_add (a b : Nat) (c : QUICReliableConn) :
    closedTimes a (closedTimes b c) = closedTimes (b + a) c := by
  unfold closedTimes
  cases h : c.internalConn with
  | none => simp [h]
  | some st => simp [Nat.add_assoc]

theorem closeErrAt_set (heap : List QUICReliableConn) (q : ConnPtr) (c : QUICReliableConn)
    (n : Nat) (h : heap[q]? = some c) (p : ConnPtr) :
    closeErrAt (heap.set q (closedTimes n c)) p = closeErrAt heap p := by
  unfold closeErrAt
  by_cases hpq : q = p
  · subst hpq
    have hlt : q < heap.length := by
      rcases Nat.lt_or_ge q heap.length with h1 | h1
      · exact h1
      · rw [List.getElem?_eq_none h1] at h
        cases h
    rw [List.getElem?_set_self hlt, h]
    unfold closedTimes
    cases hc : c.internalConn <;> simp [hc]
  · rw [List.getElem?_set_ne hpq]


theorem getElem?_set_closedTimes (heap : List QUICReliableConn) (q : ConnPtr)
    (c : QUICReliableConn) (n : Nat) (h : heap[q]? = some c) (p : ConnPtr) :
    (heap.set q (closedTimes n c))[p]? =
      (heap[p]?).map (closedTimes (if p = q then n else 0)) := by
  by_cases hpq : q = p
  · subst hpq
    have hlt : q < heap.length := by
      rcases Nat.lt_or_ge q heap.length with h1 | h1
      · exact h1
      · rw [List.getElem?_eq_none h1] at h
        cases h
    rw [List.getElem?_set_self hlt, h]
    simp
  · rw [List.getElem?_set_ne hpq]
    have hqp : ¬ p = q := fun e => hpq e.symm
    simp only [hqp, if_false]
    cases heap[p]? with
    | none => rfl
    | some d => simp [closedTimes_zero]

theorem Close_eq (c : QUICReliableConn) (st : Stream) (h : c.internalConn = some st) :
    c.Close = .ret (st.closeErr, closedTimes 1 c) := by
  unfold QUICReliableConn.Close closedTimes Stream.Close
  simp [h]

theorem CloseAll_loop_spec : ∀ (l : List ConnPtr) (w : World) (errors : List GoError),
    (∀ p ∈ l, ∃ c st, w.heap[p]? = some c ∧ c.internalConn = some st) →
    ∃ w', QUICSocket.CloseAll.loop l w errors =
        .ret (errors ++ l.filterMap (closeErrAt w.heap), w') ∧
      w'.closeCalls = w.closeCalls ++ l ∧ w'.sock = w.sock ∧
      ∀ p, w'.heap[p]? = (w.heap[p]?).map (closedTimes (l.count p)) := by
  intro l
  induction l with
  | nil =>
    intro w errors _
    refine ⟨w, by simp [QUICSocket.CloseAll.loop], by simp, rfl, ?_⟩
    intro p
    cases w.heap[p]? with
    | none => rfl
    | some d => simp [closedTimes_zero]
  | cons con rest ih =>
    intro w errors h
    obtain ⟨c, st, hc, hst⟩ := h con (List.mem_cons_self _ _)
    have hcall : (w.call con fun c => c.Close) =
        .ret (st.closeErr, { w with heap := w.heap.set con (closedTimes 1 c) }) := by
      unfold World.call
      rw [hc]
      simp only [Close_eq c st hst]
    have herr : closeErrAt w.heap con = st.closeErr := by
      unfold closeErrAt
      rw [hc]
      simp only [hst]
    have hrest : ∀ p ∈ rest, ∃ c' st',
        (w.heap.set con (closedTimes 1 c))[p]? = some c' ∧ c'.internalConn = some st' := by
      intro p hp
      obtain ⟨d, sd, hd, hsd⟩ := h p (List.mem_cons_of_mem _ hp)
      rw [getElem?_set_closedTimes w.heap con c 1 hc p, hd]
      refine ⟨closedTimes (if p = con then 1 else 0) d,
        { sd with closeCalls := sd.closeCalls + (if p = con then 1 else 0) }, rfl, ?_⟩
      unfold closedTimes
      simp only [hsd]
    have hfm : rest.filterMap (closeErrAt (w.heap.set con (closedTimes 1 c))) =
        rest.filterMap (closeErrAt w.heap) := by
      congr 1
      funext p
      exact closeErrAt_set w.heap con c 1 hc p
    have hheap : ∀ (w' : World),
        (∀ p, w'.heap[p]? =
          ((w.heap.set con (closedTimes 1 c))[p]?).map (closedTimes (rest.count p))) →
        ∀ p, w'.heap[p]? = (w.heap[p]?).map (closedTimes ((con :: rest).count p)) := by
      intro w' hw' p
      rw [hw' p, getElem?_set_closedTimes w.heap con c 1 hc p]
      cases w.heap[p]? with
      | none => rfl
      | some d =>
        simp only [Option.map_some', closedTimes_add]
        by_cases hpc : p = con
        · subst hpc
          simp [Nat.add_comm]
        · have hcp : ¬ con = p := fun e => hpc e.symm
          simp [hpc, List.count_cons, hcp]
    unfold QUICSocket.CloseAll.loop
    rw [hcall]
    simp only
    cases hce : st.closeErr with
    | none =>
      obtain ⟨w', h1, h2, h3, h4⟩ :=
        ih { heap := w.heap.set con (closedTimes 1 c), sock := w.sock,
             closeCalls := w.closeCalls ++ [con] } errors hrest
      refine ⟨w', ?_, ?_, h3, hheap w' h4⟩
      · simp only []
        rw [h1]
        simp only [hfm, List.filterMap_cons, herr, hce]
      · rw [h2]
        simp
    | some e =>
      obtain ⟨w', h1, h2, h3, h4⟩ :=
        ih { heap := w.heap.set con (closedTimes 1 c), sock := w.sock,
             closeCalls := w.closeCalls ++ [con] } (errors ++ [e]) hrest
      refine ⟨w', ?_, ?_, h3, hheap w' h4⟩
      · simp only []
        rw [h1]
        simp only [hfm, List.filterMap_cons, herr, hce]
        simp
      · rw [h2]
        simp

namespace QUICSocket

theorem Dial_eq (x : Extern) (env : DialEnv) (w : World) (remote : UDPAddr) (path : Path)
    (options : DialOptions) :
    Dial x env w remote path options =
      match w.sock.localAddr with
      | none => .panics .nilDeref
      | some la =>
        match dialBody x env la remote path options with
        | .ret (some err, c) => .ret (.err err, { w with heap := w.heap ++ [c] })
        | .ret (none, c) =>
          .ret (.ok w.heap.length,
            { w with heap := w.heap ++ [c],
                     sock := { w.sock with dialConns := w.sock.dialConns ++ [w.heap.length] } })
        | .panics e => .panics e
        | .blocks => .blocks := by
  have hset : ∀ (l : List QUICReliableConn) (a b : QUICReliableConn),
      (l ++ [a]).set l.length b = l ++ [b] := by
    intro l a b
    induction l with
    | nil => rfl
    | cons h t ih => simp [ih]
  obtain ⟨parseAddr, addrStr, enc, dec, psize⟩ := x
  unfold Dial dialBody
  cases hla : w.sock.localAddr with
  | none => simp [World.alloc, hla]
  | some la =>
    simp only [World.alloc, World.call, List.getElem?_concat_length, hset, hla]
    cases hd : (QUICReliableConn.zero.SetLocal la).Dial addrStr env remote path with
    | mk err c =>
      cases err with
      | some e => simp
      | none =>
        simp only
        by_cases ho : options.SendAddrPacket = true
        · simp only [ho, if_true]
          cases hw : c.Write (enc { Addr := la, Path := path }).1 with
          | ret a =>
            obtain ⟨r, c'⟩ := a
            simp only [hset, List.getElem?_concat_length]
            cases (enc { Addr := la, Path := path }).2 <;> simp [hw, hla]
          | panics e => simp [hw]
          | blocks => simp [hw]
        · simp [ho, hla]

end QUICSocket

namespace QUICReliableConn

theorem PutUint64_bytes (v : Nat) :
    (PutUint64 v).map Fin.val =
      [v / 2 ^ 56 % 256, v / 2 ^ 48 % 256, v / 2 ^ 40 % 256, v / 2 ^ 32 % 256,
       v / 2 ^ 24 % 256, v / 2 ^ 16 % 256, v / 2 ^ 8 % 256, v % 256] := by
  simp [PutUint64, toByte, Nat.shiftRight_eq_div_pow]

theorem Write_eq (qc : QUICReliableConn) (b : List Byte) (st : Stream) (r : WriteResult)
    (rest : List WriteResult) (hst : qc.internalConn = some st) (hw : st.writes = r :: rest) :
    qc.Write b = .ret ((min r.n b.length, r.err),
      { qc with
        internalConn := some { st with writes := rest, sent := st.sent ++ b.take (min r.n b.length) },
        metrics := { qc.metrics with
          WrittenBytes := wrapInt64 (qc.metrics.WrittenBytes + (min r.n b.length : Nat)),
          WrittenPackets := wrapInt64 (qc.metrics.WrittenPackets + 1) } }) := by
  unfold Write Stream.Write
  simp only [hst, hw, bind, Run.bind, pure]
  split <;> rfl

theorem Dial_ok {qc c : QUICReliableConn} {f : UDPAddr → String} {env : DialEnv}
    {addr : UDPAddr} {path : Path} (h : qc.Dial f env addr path = (none, c)) :
    ∃ session stream,
      env.quicDial (if addr.Path.isNone then { addr with Path := some path } else addr) =
        .ok session ∧
      session.openStream = .ok stream ∧
      c = { qc with
            peer := f (if addr.Path.isNone then { addr with Path := some path } else addr),
            path := some path, session := some session, internalConn := some stream } := by
  unfold Dial at h
  cases h1 : env.appnetListen with
  | some e =>
    rw [h1] at h
    cases h
  | none =>
    rw [h1] at h
    simp only at h
    cases h2 : env.quicDial (if addr.Path.isNone then { addr with Path := some path } else addr) with
    | err e =>
      rw [h2] at h
      cases h
    | ok session =>
      rw [h2] at h
      simp only at h
      cases h3 : session.openStream with
      | err e =>
        rw [h3] at h
        cases h
      | ok stream =>
        rw [h3] at h
        simp only at h
        injection h with _ h
        exact ⟨session, stream, rfl, h3, h.symm⟩

end QUICReliableConn

theorem lt_of_getElem?_eq_some {α : Type} {l : List α} {i : Nat} {a : α}
    (h : l[i]? = some a) : i < l.length := by
  rcases Nat.lt_or_ge i l.length with h1 | h1
  · exact h1
  · rw [List.getElem?_eq_none h1] at h
    cases h

theorem Keeps.refl (lp : ConnPtr) (w : World) : Keeps lp w w :=
  ⟨rfl, rfl, rfl, fun _ _ _ => rfl, Nat.le_refl _⟩

theorem Keeps.trans {lp : ConnPtr} {w1 w2 w3 : World} (h12 : Keeps lp w1 w2)
    (h23 : Keeps lp w2 w3) : Keeps lp w1 w3 :=
  ⟨h23.dial.trans h12.dial, h23.la.trans h12.la, h23.close.trans h12.close,
   fun p hp hlt => (h23.heap p hp (Nat.lt_of_lt_of_le hlt h12.len)).trans (h12.heap p hp hlt),
   Nat.le_trans h12.len h23.len⟩

namespace QUICSocket

theorem acceptStep_ok (lp : ConnPtr) (first : Bool) (w : World) (h : AcceptsOk lp w) :
    ∃ first' w', acceptStep lp first w = .ret (first', w') ∧ AcceptsOk lp w' ∧ Keeps lp w w' ∧
      (first = false → first' = false ∧ ∃ c c', w.heap[lp]? = some c ∧ w'.heap[lp]? = some c' ∧
        c'.internalConn = c.internalConn ∧ c'.path = c.path) := by
  obtain ⟨⟨ls, hls⟩, ⟨c, l, hc, hl, hall⟩, ⟨la, hla⟩⟩ := h
  have hlt : lp < w.heap.length := lt_of_getElem?_eq_some hc
  unfold acceptStep
  rw [hc]
  simp only
  unfold QUICReliableConn.AcceptStream
  rw [hl]
  simp only
  cases hacc : l.accepts with
  | nil =>
    simp only
    exact ⟨first, w, rfl, ⟨⟨ls, hls⟩, ⟨c, l, hc, hl, hall⟩, ⟨la, hla⟩⟩, Keeps.refl lp w,
      fun hf => ⟨hf, c, c, rfl, hc, rfl, rfl⟩⟩
  | cons r rest =>
    obtain ⟨s, st, hr, hs⟩ := hall r (by rw [hacc]; exact List.mem_cons_self _ _)
    have hall' : Listener.allDeliver { accepts := rest } := by
      intro r' hr'
      exact hall r' (by rw [hacc]; exact List.mem_cons_of_mem _ hr')
    subst hr
    simp only [hs]
    cases first with
    | true =>
      simp only [if_true, hls, World.call, List.getElem?_set_self hlt, List.set_set]
      refine ⟨false, _, rfl, ⟨⟨ls, hls⟩, ⟨_, _, List.getElem?_set_self hlt, rfl, hall'⟩,
        ⟨la, hla⟩⟩, ⟨rfl, rfl, rfl, ?_, ?_⟩, ?_⟩
      · intro p hp _
        exact List.getElem?_set_ne (fun e => hp e.symm)
      · simp
      · intro hf
        cases hf
    | false =>
      simp only [World.alloc, World.call, hla, List.length_set, Bool.false_eq_true, if_false]
      have hnew : (w.heap.set lp { c with listener := some { accepts := rest } } ++
          [QUICReliableConn.zero])[w.heap.length]? = some QUICReliableConn.zero := by
        simp
      rw [hnew]
      simp only
      have hlp : ∀ (d : QUICReliableConn),
          ((w.heap.set lp { c with listener := some { accepts := rest } } ++
            [QUICReliableConn.zero]).set w.heap.length d)[lp]? =
            some { c with listener := some { accepts := rest } } := by
        intro d
        rw [List.getElem?_set_ne (Nat.ne_of_gt hlt), List.getElem?_append_left (by simpa using hlt),
          List.getElem?_set_self hlt]
      refine ⟨false, _, rfl, ⟨⟨ls ++ [w.heap.length], by simp [hls]⟩, ⟨_, _, hlp _, rfl, hall'⟩,
        ⟨la, hla⟩⟩, ⟨rfl, rfl, rfl, ?_, ?_⟩, ?_⟩
      · intro p hp hplt
        rw [List.getElem?_set_ne (Nat.ne_of_gt hplt),
          List.getElem?_append_left (by simpa using hplt),
          List.getElem?_set_ne (fun e => hp e.symm)]
      · simp
      · intro _
        exact ⟨rfl, c, _, rfl, hlp _, rfl, rfl⟩

theorem acceptSteps_ok (lp : ConnPtr) : ∀ (k : Nat) (first : Bool) (w : World),
    AcceptsOk lp w →
    ∃ first' w', acceptSteps lp k first w = .ret (first', w') ∧ AcceptsOk lp w' ∧ Keeps lp w w' ∧
      (first = false → ∃ c c', w.heap[lp]? = some c ∧ w'.heap[lp]? = some c' ∧
        c'.internalConn = c.internalConn ∧ c'.path = c.path) := by
  intro k
  induction k with
  | zero =>
    intro first w h
    obtain ⟨c, l, hc, _⟩ := h.listener
    exact ⟨first, w, rfl, h, Keeps.refl lp w, fun _ => ⟨c, c, hc, hc, rfl, rfl⟩⟩
  | succ k ih =>
    intro first w h
    obtain ⟨f1, w1, h1, hok1, hk1, hs1⟩ := acceptStep_ok lp first w h
    obtain ⟨f2, w2, h2, hok2, hk2, hs2⟩ := ih f1 w1 hok1
    refine ⟨f2, w2, ?_, hok2, hk1.trans hk2, ?_⟩
    · unfold acceptSteps
      rw [h1]
      exact h2
    · intro hf
      obtain ⟨hf1, c, c1, hc, hc1, hi1, hp1⟩ := hs1 hf
      obtain ⟨d1, c2, hd1, hc2, hi2, hp2⟩ := hs2 hf1
      rw [hc1] at hd1
      cases hd1
      exact ⟨c, c2, hc, hc2, hi2.trans hi1, hp2.trans hp1⟩

theorem dialBody_ok {x : Extern} {env : DialEnv} {la remote : UDPAddr} {path : Path}
    {options : DialOptions} {c : QUICReliableConn}
    (h : dialBody x env la remote path options = .ret (none, c)) :
    c.path = some path ∧ ∃ st, c.internalConn = some st := by
  unfold dialBody at h
  cases hd : (QUICReliableConn.zero.SetLocal la).Dial x.addrString env remote path with
  | mk err c1 =>
    rw [hd] at h
    cases err with
    | some e => cases h
    | none =>
      obtain ⟨session, stream, _, _, hc1⟩ := QUICReliableConn.Dial_ok hd
      simp only at h
      by_cases hopt : options.SendAddrPacket = true
      · simp only [hopt, if_true] at h
        have hi : c1.internalConn = some stream := by rw [hc1]
        cases hw : stream.writes with
        | nil =>
          unfold QUICReliableConn.Write Stream.Write at h
          simp [hi, hw, bind, Run.bind] at h
        | cons r rest =>
          rw [QUICReliableConn.Write_eq c1 _ stream r rest hi hw] at h
          simp only at h
          injection h with h
          injection h with _ h
          subst h
          exact ⟨by rw [hc1], _, rfl⟩
      · simp only [hopt] at h
        injection h with h
        injection h with _ h
        subst h
        exact ⟨by rw [hc1], stream, by rw [hc1]⟩

theorem Dial_ok_spec {x : Extern} {env : DialEnv} {w w' : World} {remote : UDPAddr}
    {path : Path} {options : DialOptions} {conn : ConnPtr}
    (h : Dial x env w remote path options = .ret (.ok conn, w')) :
    conn = w.heap.length ∧
    (∃ c st, w'.heap = w.heap ++ [c] ∧ c.path = some path ∧ c.internalConn = some st) ∧
    w'.sock = { w.sock with dialConns := w.sock.dialConns ++ [conn] } ∧
    w'.closeCalls = w.closeCalls := by
  rw [Dial_eq] at h
  cases hla : w.sock.localAddr with
  | none =>
    rw [hla] at h
    cases h
  | some la =>
    rw [hla] at h
    simp only at h
    cases hb : dialBody x env la remote path options with
    | panics e =>
      rw [hb] at h
      cases h
    | blocks =>
      rw [hb] at h
      cases h
    | ret r =>
      obtain ⟨err, c⟩ := r
      rw [hb] at h
      cases err with
      | some e =>
        simp only at h
        injection h with h
        injection h with h1 _
        cases h1
      | none =>
        simp only at h
        injection h with h
        injection h with h1 h2
        injection h1 with h1
        subst h1
        subst h2
        obtain ⟨hp, st, hst⟩ := dialBody_ok hb
        exact ⟨rfl, ⟨c, st, rfl, hp, hst⟩, rfl, rfl⟩

theorem AcceptsOk_of_Dial {lp : ConnPtr} {x : Extern} {env : DialEnv} {w w' : World}
    {remote : UDPAddr} {path : Path} {options : DialOptions} {conn : ConnPtr}
    (hok : AcceptsOk lp w) (h : Dial x env w remote path options = .ret (.ok conn, w')) :
    AcceptsOk lp w' := by
  obtain ⟨_, ⟨c, st, hheap, _, _⟩, hsock, _⟩ := Dial_ok_spec h
  obtain ⟨⟨ls, hls⟩, ⟨d, l, hd, hl, hall⟩, ⟨la, hla⟩⟩ := hok
  have hlt : lp < w.heap.length := lt_of_getElem?_eq_some hd
  refine ⟨⟨ls, by rw [hsock]; exact hls⟩, ⟨d, l, ?_, hl, hall⟩, ⟨la, by rw [hsock]; exact hla⟩⟩
  rw [hheap, List.getElem?_append_left hlt]
  exact hd

theorem DialAll_loop_spec (x : Extern) (envs : Nat → DialEnv) (bg : Nat → Nat) (lp : ConnPtr)
    (remote : UDPAddr) (options : DialOptions) :
    ∀ (paths : List Path) (i : Nat) (first : Bool) (w : World) (conns : List ConnPtr),
      AcceptsOk lp w →
      (∀ (j : Nat) (v : Path), paths[j]? = some v → ∀ w0 : World,
        w0.sock.localAddr = w.sock.localAddr →
        ∃ conn w1, Dial x (envs (i + j)) w0 remote v options = .ret (.ok conn, w1)) →
      ∃ dialed w',
        DialAll.loop x envs bg lp remote options i first paths w conns =
          .ret (.ok (conns ++ dialed), w') ∧
        dialed.length = paths.length ∧
        w'.sock.dialConns = w.sock.dialConns ++ dialed ∧
        AcceptsOk lp w' ∧
        w'.sock.localAddr = w.sock.localAddr ∧
        w'.closeCalls = w.closeCalls ∧
        (∀ p, p ≠ lp → p < w.heap.length → w'.heap[p]? = w.heap[p]?) ∧
        w.heap.length ≤ w'.heap.length ∧
        (∀ (j : Nat) (v : Path), paths[j]? = some v →
          ∃ (q : ConnPtr) (c : QUICReliableConn) (st : Stream),
            dialed[j]? = some q ∧ w'.heap[q]? = some c ∧
            c.path = some v ∧ c.internalConn = some st) := by
  intro paths
  induction paths with
  | nil =>
    intro i first w conns hok _
    refine ⟨[], w, by simp [DialAll.loop], rfl, by simp, hok, rfl, rfl, fun _ _ _ => rfl,
      Nat.le_refl _, ?_⟩
    intro j v hj
    simp at hj
  | cons v rest ih =>
    intro i first w conns hok hdial
    obtain ⟨f1, w1, h1, hok1, hk1, _⟩ := acceptSteps_ok lp (bg i) first w hok
    obtain ⟨conn, w2, h2⟩ := hdial 0 v (by simp) w1 hk1.la
    rw [Nat.add_zero] at h2
    obtain ⟨hconn, ⟨c, st, hheap, hpath, hst⟩, hsock, hclose⟩ := Dial_ok_spec h2
    have hok2 : AcceptsOk lp w2 := AcceptsOk_of_Dial hok1 h2
    obtain ⟨d1, _, hd1, _, _⟩ := hok1.listener
    have hlt1 : lp < w1.heap.length := lt_of_getElem?_eq_some hd1
    have hla2 : w2.sock.localAddr = w.sock.localAddr := by rw [hsock]; exact hk1.la
    have hdial' : ∀ j v', rest[j]? = some v' → ∀ w0 : World,
        w0.sock.localAddr = w2.sock.localAddr →
        ∃ conn w1, Dial x (envs (i + 1 + j)) w0 remote v' options = .ret (.ok conn, w1) := by
      intro j v' hj w0 hw0
      have := hdial (j + 1) v' (by simpa using hj) w0 (hw0.trans hla2)
      rw [show i + (j + 1) = i + 1 + j by omega] at this
      exact this
    obtain ⟨dialed, w', hl, hlen, hdc, hok', hla', hcl', hkeep, hgrow, hpaths⟩ :=
      ih (i + 1) f1 w2 (conns ++ [conn]) hok2 hdial'
    have hlen2 : w2.heap.length = w1.heap.length + 1 := by rw [hheap]; simp
    refine ⟨conn :: dialed, w', ?_, by simp [hlen], ?_, hok', hla'.trans hla2,
      hcl'.trans (hclose.trans hk1.close), ?_, ?_, ?_⟩
    · unfold DialAll.loop
      rw [h1]
      simp only
      rw [h2]
      simp only
      rw [hl]
      simp
    · rw [hdc, hsock]
      simp [hk1.dial]
    · intro p hp hplt
      have hp1 : p < w1.heap.length := Nat.lt_of_lt_of_le hplt hk1.len
      rw [hkeep p hp (by rw [hlen2]; exact Nat.lt_succ_of_lt hp1), hheap,
        List.getElem?_append_left hp1]
      exact hk1.heap p hp hplt
    · exact Nat.le_trans hk1.len (Nat.le_trans (by rw [hlen2]; exact Nat.le_succ _) hgrow)
    · intro j v' hj
      cases j with
      | zero =>
        simp only [List.getElem?_cons_zero, Option.some.injEq] at hj
        subst hj
        have hne : conn ≠ lp := by rw [hconn]; exact Nat.ne_of_gt hlt1
        refine ⟨conn, c, st, by simp, ?_, hpath, hst⟩
        rw [hkeep conn hne (by rw [hconn, hlen2]; exact Nat.lt_succ_self _), hheap, hconn]
        simp
      | succ j =>
        obtain ⟨q, c', st', hq, hc', hp', hs'⟩ := hpaths j v' (by simpa using hj)
        exact ⟨q, c', st', by simpa using hq, hc', hp', hs'⟩

theorem Dial_ok_of_dialBody {x : Extern} {env : DialEnv} {w : World} {la remote : UDPAddr}
    {path : Path} {options : DialOptions} {c : QUICReliableConn}
    (hla : w.sock.localAddr = some la)
    (hb : dialBody x env la remote path options = .ret (none, c)) :
    ∃ conn w', Dial x env w remote path options = .ret (.ok conn, w') := by
  rw [Dial_eq, hla]
  simp only [hb]
  exact ⟨_, _, rfl⟩

end QUICSocket
namespace QUICReliableConn

theorem Read_eq (qc : QUICReliableConn) (b : List Byte) (st : Stream) (r : ReadResult)
    (rest : List ReadResult) (hi : qc.internalConn = some st) (hr : st.reads = r :: rest) :
    qc.Read b =
      if r.data.length ≤ b.length then
        .ret ((r.data.length, r.err, r.data ++ b.drop r.data.length),
          if r.err ≠ none then { qc with internalConn := some { st with reads := rest } }
          else { qc with
                 internalConn := some { st with reads := rest },
                 metrics := { qc.metrics with
                   ReadBytes := wrapInt64 (qc.metrics.ReadBytes + (r.data.length : Nat)),
                   ReadPackets := wrapInt64 (qc.metrics.ReadPackets + 1) } })
      else
        .ret ((b.length, none, r.data.take b.length),
          { qc with
            internalConn := some { st with reads := { r with data := r.data.drop b.length } :: rest },
            metrics := { qc.metrics with
              ReadBytes := wrapInt64 (qc.metrics.ReadBytes + (b.length : Nat)),
              ReadPackets := wrapInt64 (qc.metrics.ReadPackets + 1) } }) := by
  unfold Read Stream.Read
  simp only [hi, hr, bind, Run.bind, pure]
  by_cases hfit : r.data.length ≤ b.length
  · simp only [hfit, if_true]
    cases r.err <;> rfl
  · simp only [hfit, if_false]
    rfl

theorem Read_budget {qc qc' : QUICReliableConn} {buf buf' : List Byte} {n : Nat}
    {e : Option GoError} (h : qc.Read buf = .ret ((n, e, buf'), qc')) (hpos : 0 < buf.length) :
    readBudget qc' < readBudget qc ∧ buf'.length = buf.length := by
  cases hi : qc.internalConn with
  | none =>
    unfold Read at h
    rw [hi] at h
    cases h
  | some st =>
    cases hr : st.reads with
    | nil =>
      unfold Read Stream.Read at h
      simp [hi, hr, bind, Run.bind] at h
    | cons r rest =>
      rw [Read_eq qc buf st r rest hi hr] at h
      by_cases hfit : r.data.length ≤ buf.length
      · simp only [hfit, if_true] at h
        injection h with h
        injection h with h1 h2
        injection h1 with _ h1
        injection h1 with _ h1
        subst h1
        subst h2
        have hb : readBudget qc = r.data.length + 1 + (rest.map fun r => r.data.length + 1).sum := by
          simp [readBudget, hi, hr]
        constructor
        · rw [hb]
          cases r.err <;> simp [readBudget]
        · simp
          omega
      · simp only [hfit, if_false] at h
        injection h with h
        injection h with h1 h2
        injection h1 with _ h1
        injection h1 with _ h1
        subst h1
        subst h2
        have hb : readBudget qc = r.data.length + 1 + (rest.map fun r => r.data.length + 1).sum := by
          simp [readBudget, hi, hr]
        constructor
        · rw [hb]
          simp [readBudget]
          omega
        · simp
          omega

/-- The bound on the iterations of the loop of `ReadStream` is never reached:
with more iterations allowed the loop ends the same way. -/
theorem ReadStream_loop_fuel : ∀ (fuel k : Nat) (qc : QUICReliableConn) (len : Nat)
    (err : Option GoError) (buf b : List Byte) (i : Nat),
    0 < buf.length → readBudget qc < fuel →
    ReadStream.loop (fuel + k) qc len err buf b i = ReadStream.loop fuel qc len err buf b i := by
  intro fuel
  induction fuel with
  | zero =>
    intro k qc len err buf b i _ h
    cases h
  | succ fuel ih =>
    intro k qc len err buf b i hpos hfuel
    rw [show fuel + 1 + k = (fuel + k) + 1 by omega]
    unfold ReadStream.loop
    by_cases hlt : i < len
    · simp only [hlt, if_true, bind, Run.bind, pure]
      cases hread : qc.Read buf with
      | panics e => rfl
      | blocks => rfl
      | ret a =>
        obtain ⟨⟨n, e, buf'⟩, qc'⟩ := a
        obtain ⟨hb, hl⟩ := Read_budget hread hpos
        simp only
        by_cases he : e ≠ none
        · rw [if_pos he, if_pos he]
        · rw [if_neg he, if_neg he]
          cases copyAt b i (i + n) buf' with
          | panics e => rfl
          | blocks => rfl
          | ret b' =>
            exact ih k qc' len err buf' b' (i + n) (by rw [hl]; exact hpos) (by omega)
    · simp only [hlt, if_false]

end QUICReliableConn

namespace QUICSocket

theorem call_eq {α : Type} (w : World) (p : ConnPtr) (c c' : QUICReliableConn) (a : α)
    (f : QUICReliableConn → Run (α × QUICReliableConn))
    (hc : w.heap[p]? = some c) (hf : f c = .ret (a, c')) :
    w.call p f = .ret (a, { w with heap := w.heap.set p c' }) := by
  unfold World.call
  rw [hc]
  simp only [hf]

theorem WaitForDialIn_handshake (x : Extern) (bg : Nat) (w : World) (lp : ConnPtr)
    (c : QUICReliableConn) (l : Listener) (sess : Session) (accs : List (Res Session))
    (st : Stream) (pkt : List Byte) (rs : List ReadResult) (p : DialPacketQuic)
    (hok : AcceptsOk lp w)
    (hc : w.heap[lp]? = some c) (hl : c.listener = some l)
    (hacc : l.accepts = .ok sess :: accs) (hst : sess.acceptStream = .ok st)
    (hread : st.reads = ⟨pkt, none⟩ :: rs)
    (hsize : pkt.length ≤ x.PACKET_SIZE)
    (hdec : x.gobDecode (pkt ++ (List.replicate x.PACKET_SIZE 0).drop pkt.length) = .ok p) :
    ∃ w' c', WaitForDialIn x bg w true = .ret (.ok (some p.Addr), w') ∧
      w'.sock.listenConns.head? = some lp ∧
      w'.heap[lp]? = some c' ∧ c'.path = some p.Path := by
  obtain ⟨ls, hls⟩ := hok.head
  obtain ⟨d, l0, hd, hl0, hall⟩ := hok.listener
  rw [hc] at hd
  cases hd
  rw [hl] at hl0
  cases hl0
  have hlt : lp < w.heap.length := lt_of_getElem?_eq_some hc
  -- the first stream is accepted and attached
  obtain ⟨c1, hc1⟩ : ∃ c1 : QUICReliableConn, c1 = { c with listener := some { accepts := accs } } :=
    ⟨_, rfl⟩
  have h1 : (w.call lp fun c => c.AcceptStream) =
      .ret (.ok st, { w with heap := w.heap.set lp c1 }) := by
    apply call_eq w lp c _ _ _ hc
    unfold QUICReliableConn.AcceptStream
    simp only [hl, hacc, hst, hc1]
  obtain ⟨w2, hw2⟩ : ∃ w2 : World, w2 = { w with heap := w.heap.set lp (c1.SetStream st) } :=
    ⟨_, rfl⟩
  have h2 : (World.call { w with heap := w.heap.set lp c1 } lp
      fun c => Run.ret ((), c.SetStream st)) = .ret ((), w2) := by
    rw [call_eq _ lp c1 _ () _ (List.getElem?_set_self hlt) rfl, hw2]
    simp [List.set_set]
  have hw2lp : w2.heap[lp]? = some (c1.SetStream st) := by
    rw [hw2]
    exact List.getElem?_set_self hlt
  have hok2 : AcceptsOk lp w2 := by
    refine ⟨⟨ls, by rw [hw2]; exact hls⟩, ⟨_, { accepts := accs }, hw2lp, by rw [hc1]; rfl, ?_⟩,
      by rw [hw2]; exact hok.la⟩
    intro r hr
    exact hall r (by rw [hacc]; exact List.mem_cons_of_mem _ hr)
  -- the accept loop runs
  obtain ⟨f3, w3, h3, hok3, hk3, hs3⟩ := acceptSteps_ok lp bg false w2 hok2
  obtain ⟨c2, c3, hc2, hc3, hi3, hp3⟩ := hs3 rfl
  rw [hw2lp] at hc2
  cases hc2
  have hi3' : c3.internalConn = some st := by rw [hi3]; rfl
  obtain ⟨ls3, hls3⟩ := hok3.head
  have hlt3 : lp < w3.heap.length := lt_of_getElem?_eq_some hc3
  -- the handshake read
  obtain ⟨c4, hc4⟩ : ∃ c4 : QUICReliableConn,
      c4 = { c3 with internalConn := some { st with reads := rs } } := ⟨_, rfl⟩
  have h4 : (w3.call lp fun c =>
        match c.internalConn with
        | none => Run.panics Panic.nilDeref
        | some st =>
          match st.Read (List.replicate x.PACKET_SIZE 0) with
          | .ret (r, st) => Run.ret (r, { c with internalConn := some st })
          | .panics e => .panics e
          | .blocks => .blocks) =
      .ret ((pkt.length, none, pkt ++ (List.replicate x.PACKET_SIZE 0).drop pkt.length),
        { w3 with heap := w3.heap.set lp c4 }) := by
    apply call_eq w3 lp c3 _ _ _ hc3
    unfold Stream.Read
    simp only [hi3', hread, List.length_replicate, hsize, if_true, hc4]
  -- the path is stored
  have h5 : (World.call { w3 with heap := w3.heap.set lp c4 } lp
      fun c => Run.ret ((), c.SetPath p.Path)) =
      .ret ((), { w3 with heap := w3.heap.set lp (c4.SetPath p.Path) }) := by
    rw [call_eq _ lp c4 _ () _ (List.getElem?_set_self hlt3) rfl]
    simp [List.set_set]
  refine ⟨{ w3 with heap := w3.heap.set lp (c4.SetPath p.Path) }, c4.SetPath p.Path, ?_,
    by simp [hls3], List.getElem?_set_self hlt3, rfl⟩
  unfold WaitForDialIn
  simp only [hls, h1, h2, h3, if_true, h4, hdec, hls3, h5]

theorem Dial_handshake_sent {x : Extern} {env : DialEnv} {w w' : World} {remote D : UDPAddr}
    {π : Path} {conn : ConnPtr} (hD : w.sock.localAddr = some D)
    (h : Dial x env w remote π ⟨true⟩ = .ret (.ok conn, w')) :
    (x.gobEncode ⟨D, π⟩).2 = none ∧
    ∃ session s0 r rest c st,
      env.quicDial (if remote.Path.isNone then { remote with Path := some π } else remote) =
        .ok session ∧
      session.openStream = .ok s0 ∧ s0.writes = r :: rest ∧
      w'.heap[conn]? = some c ∧ c.internalConn = some st ∧
      st.sent = s0.sent ++
        (x.gobEncode ⟨D, π⟩).1.take (min r.n (x.gobEncode ⟨D, π⟩).1.length) := by
  rw [Dial_eq, hD] at h
  simp only at h
  cases hb : dialBody x env D remote π ⟨true⟩ with
  | panics e =>
    rw [hb] at h
    cases h
  | blocks =>
    rw [hb] at h
    cases h
  | ret r =>
    obtain ⟨err, c⟩ := r
    rw [hb] at h
    cases err with
    | some e =>
      simp only at h
      injection h with h
      injection h with h1 _
      cases h1
    | none =>
      simp only at h
      injection h with h
      injection h with h1 h2
      injection h1 with h1
      subst h1
      subst h2
      unfold dialBody at hb
      cases hd : (QUICReliableConn.zero.SetLocal D).Dial x.addrString env remote π with
      | mk err1 c1 =>
        rw [hd] at hb
        cases err1 with
        | some e => cases hb
        | none =>
          obtain ⟨session, s0, hq, ho, hc1⟩ := QUICReliableConn.Dial_ok hd
          simp only [if_true] at hb
          have hi : c1.internalConn = some s0 := by rw [hc1]
          cases hw : s0.writes with
          | nil =>
            unfold QUICReliableConn.Write Stream.Write at hb
            simp [hi, hw, bind, Run.bind] at hb
          | cons r rest =>
            rw [QUICReliableConn.Write_eq c1 _ s0 r rest hi hw] at hb
            simp only at hb
            injection hb with hb
            injection hb with he hc
            subst hc
            exact ⟨he, session, s0, r, rest, _, _, hq, ho, hw,
              List.getElem?_concat_length _ _, rfl, rfl⟩

theorem byteCodec_round_trip (p : DialPacketQuic) (pad : List Byte)
    (h : (byteCodecEncode p).2 = none) :
    byteCodecDecode ((byteCodecEncode p).1 ++ pad) = .ok p := by
  have hb : ∀ n : Nat, n < 256 → (toByte n).val = n := fun n hn => Nat.mod_eq_of_lt hn
  unfold byteCodecEncode at h ⊢
  obtain ⟨⟨ia, ip, port, apath⟩, ⟨pid⟩⟩ := p
  cases apath with
  | none =>
    simp only [Option.isSome_none, Bool.false_eq_true, if_false] at h ⊢
    split at h
    · rename_i hcond
      obtain ⟨h1, h2, h3, h4, h5⟩ := hcond
      simp [byteCodecDecode, h1, h2, h3, h5, hb, toByte]
    · cases h
  | some q =>
    obtain ⟨qid⟩ := q
    simp only [Option.isSome_some, if_true] at h ⊢
    split at h
    · rename_i hcond
      obtain ⟨h1, h2, h3, h4, h5⟩ := hcond
      simp [byteCodecDecode, h1, h2, h3, h4, h5, hb, toByte]
    · cases h

end QUICSocket
/-! ## The socket's lists -/

namespace QUICSocket

/-- C9: `GetConnections` returns the listen-side connections in list order
followed by the dial-side connections in list order, so its length is the sum
of the two lengths; `GetDialConnections` returns the dial-side connections in
list order; neither call changes the socket or any connection. -/
theorem GetConnections_listen_then_dial (w : World) :
    GetConnections w = (w.sock.listenConns ++ w.sock.dialConns, w) ∧
    (GetConnections w).1.length = w.sock.listenConns.length + w.sock.dialConns.length ∧
    GetDialConnections w = (w.sock.dialConns, w) := by
  have h1 : GetConnections w = (w.sock.listenConns ++ w.sock.dialConns, w) := by
    simp [GetConnections, foldl_append_singleton]
  refine ⟨h1, ?_, ?_⟩
  · rw [h1]
    simp
  · simp [GetDialConnections, foldl_append_singleton]

/-- C7: when `Dial` returns an error, the dial-side list and the listen-side
list are what they were before the call; when it returns a connection, the
dial-side list is the previous list with that connection appended at the end
and the listen-side list is unchanged. -/
theorem Dial_failure_keeps_lists (x : Extern) (env : DialEnv) (w : World) (remote : UDPAddr)
    (path : Path) (options : DialOptions) :
    (∀ err w', Dial x env w remote path options = .ret (.err err, w') →
      w'.sock.dialConns = w.sock.dialConns ∧ w'.sock.listenConns = w.sock.listenConns) ∧
    (∀ conn w', Dial x env w remote path options = .ret (.ok conn, w') →
      w'.sock.dialConns = w.sock.dialConns ++ [conn] ∧
      w'.sock.listenConns = w.sock.listenConns) := by
  rw [Dial_eq]
  cases w.sock.localAddr with
  | none =>
    constructor <;> intro a w' h <;> cases h
  | some la =>
    simp only
    cases dialBody x env la remote path options with
    | panics e => constructor <;> intro a w' h <;> cases h
    | blocks => constructor <;> intro a w' h <;> cases h
    | ret r =>
      obtain ⟨err, c⟩ := r
      cases err with
      | some e =>
        constructor
        · intro a w' h
          injection h with h
          injection h with h1 h2
          subst h2
          exact ⟨rfl, rfl⟩
        · intro a w' h
          injection h with h
          injection h with h1 h2
          cases h1
      | none =>
        constructor
        · intro a w' h
          injection h with h
          injection h with h1 h2
          cases h1
        · intro a w' h
          injection h with h
          injection h with h1 h2
          injection h1 with h1
          subst h2
          subst h1
          exact ⟨rfl, rfl⟩

/-- C7, at a concrete socket: a dial that the transport refuses leaves both
lists empty, and a dial that succeeds appends connection 0. -/
theorem Dial_failure_keeps_lists_witness :
    (∃ w', Dial demoExtern dialFailEnv dialerWorld demoRemote ⟨7⟩ ⟨true⟩ = .ret (.err ⟨4⟩, w') ∧
      w'.sock.dialConns = [] ∧ w'.sock.listenConns = []) ∧
    (∃ w', Dial demoExtern (dialOkEnv none) dialerWorld demoRemote ⟨7⟩ ⟨true⟩ =
        .ret (.ok 0, w') ∧
      w'.sock.dialConns = [0] ∧ w'.sock.listenConns = []) := by
  constructor
  · have h : ∃ w', Dial demoExtern dialFailEnv dialerWorld demoRemote ⟨7⟩ ⟨true⟩ =
        .ret (.err ⟨4⟩, w') := ⟨_, rfl⟩
    obtain ⟨w', hw⟩ := h
    exact ⟨w', hw,
      (Dial_failure_keeps_lists demoExtern dialFailEnv dialerWorld demoRemote ⟨7⟩ ⟨true⟩).1 _ _ hw⟩
  · have h : ∃ w', Dial demoExtern (dialOkEnv none) dialerWorld demoRemote ⟨7⟩ ⟨true⟩ =
        .ret (.ok 0, w') := ⟨_, rfl⟩
    obtain ⟨w', hw⟩ := h
    exact ⟨w', hw,
      (Dial_failure_keeps_lists demoExtern (dialOkEnv none) dialerWorld demoRemote ⟨7⟩ ⟨true⟩).2
        _ _ hw⟩

/-- C5: when every dial-side connection has a stream, `CloseAll` returns, the
`Close` calls it makes are one on each dial-side connection in list order,
whatever the earlier ones answered; the errors returned are those of the
connections whose `Close` failed, in list order; the socket's lists are
unchanged; each connection's stream has been closed as many times as the
connection occurs in the dial-side list, so a listen-side connection that is
not in the dial-side list is not closed. -/
theorem CloseAll_closes_every_dial_conn (w : World)
    (h : ∀ p ∈ w.sock.dialConns, ∃ c st, w.heap[p]? = some c ∧ c.internalConn = some st) :
    ∃ w', CloseAll w = .ret (w.sock.dialConns.filterMap (closeErrAt w.heap), w') ∧
      w'.closeCalls = w.closeCalls ++ w.sock.dialConns ∧
      w'.sock = w.sock ∧
      (∀ p, w'.heap[p]? = (w.heap[p]?).map (closedTimes (w.sock.dialConns.count p))) ∧
      (∀ p ∈ w.sock.listenConns, p ∉ w.sock.dialConns → w'.heap[p]? = w.heap[p]?) := by
  obtain ⟨w', h1, h2, h3, h4⟩ := CloseAll_loop_spec w.sock.dialConns w [] h
  refine ⟨w', ?_, h2, h3, h4, ?_⟩
  · unfold CloseAll
    rw [h1]
    simp
  · intro p _ hp
    rw [h4 p, List.count_eq_zero_of_not_mem hp]
    cases w.heap[p]? with
    | none => rfl
    | some d => simp [closedTimes_zero]

/-- C5, with three dial-side connections of which the second fails to close:
exactly one error is returned and all three connections are closed, in order. -/
theorem CloseAll_closes_every_dial_conn_witness :
    ∃ w', CloseAll threeDialed = .ret ([⟨5⟩], w') ∧ w'.closeCalls = [0, 1, 2] := by
  have hs : ∀ p ∈ threeDialed.sock.dialConns,
      ∃ c st, threeDialed.heap[p]? = some c ∧ c.internalConn = some st := by
    intro p hp
    simp only [threeDialed, List.mem_cons, List.mem_singleton, List.not_mem_nil, or_false] at hp
    rcases hp with rfl | rfl | rfl <;> exact ⟨_, _, rfl, rfl⟩
  obtain ⟨w', h1, h2, _⟩ := CloseAll_closes_every_dial_conn threeDialed hs
  exact ⟨w', h1, h2⟩

end QUICSocket

/-! ## Message framing and metrics -/

namespace QUICReliableConn

/-- C2: on a connection whose transport answers the next write with `r1`, the
prefix `WriteStream` writes is the eight-byte big-endian encoding of `len(P)`;
when the transport takes both writes in full, `WriteStream(P)` makes exactly
two writes and the bytes added to the stream are that prefix followed by `P`,
nothing else; when the prefix write reports an error, that error is returned
and no second write is made. -/
theorem WriteStream_wire_format (qc : QUICReliableConn) (P : List Byte) (st : Stream)
    (r1 : WriteResult) (rest : List WriteResult)
    (hst : qc.internalConn = some st) (hw : st.writes = r1 :: rest) (hlen : P.length < 2 ^ 64) :
    ((PutUint64 P.length).map Fin.val =
      [P.length / 2 ^ 56 % 256, P.length / 2 ^ 48 % 256, P.length / 2 ^ 40 % 256,
       P.length / 2 ^ 32 % 256, P.length / 2 ^ 24 % 256, P.length / 2 ^ 16 % 256,
       P.length / 2 ^ 8 % 256, P.length % 256]) ∧
    (∀ r2 rest', rest = r2 :: rest' → 8 ≤ r1.n → r1.err = none → P.length ≤ r2.n →
      r2.err = none →
      ∃ qc' st', qc.WriteStream P = .ret ((P.length, none), qc') ∧
        qc'.internalConn = some st' ∧
        st'.sent = st.sent ++ (PutUint64 P.length ++ P) ∧
        st'.writes = rest' ∧
        qc'.metrics.WrittenPackets =
          wrapInt64 (wrapInt64 (qc.metrics.WrittenPackets + 1) + 1)) ∧
    (∀ e, r1.err = some e →
      ∃ qc' st', qc.WriteStream P = .ret ((min r1.n 8, some e), qc') ∧
        qc'.internalConn = some st' ∧
        st'.sent = st.sent ++ (PutUint64 P.length).take (min r1.n 8) ∧
        st'.writes = rest ∧
        qc'.metrics.WrittenPackets = wrapInt64 (qc.metrics.WrittenPackets + 1)) := by
  have hu : toUint64 P.length = P.length := Nat.mod_eq_of_lt hlen
  have h8 : (PutUint64 P.length).length = 8 := rfl
  refine ⟨PutUint64_bytes _, ?_, ?_⟩
  · intro r2 rest' hrest hn1 he1 hn2 he2
    subst hrest
    unfold WriteStream
    simp only [hu, bind, Run.bind, pure]
    rw [Write_eq qc _ st r1 _ hst hw]
    simp only [he1, ne_eq, not_true_eq_false, if_false]
    rw [Write_eq _ P _ r2 rest' rfl rfl]
    simp only [h8, he2, Nat.min_eq_right hn1, Nat.min_eq_right hn2]
    refine ⟨_, _, rfl, rfl, ?_, rfl, rfl⟩
    simp [List.take_of_length_le, h8]
  · intro e he
    unfold WriteStream
    simp only [hu, bind, Run.bind, pure]
    rw [Write_eq qc _ st r1 _ hst hw]
    simp only [he, h8]
    exact ⟨_, _, rfl, rfl, rfl, rfl, rfl⟩

/-- C2, on a transport that takes both writes in full: the stream carries the
prefix `0 0 0 0 0 0 0 2` and then the payload. -/
theorem WriteStream_wire_format_witness :
    ∃ qc' st', (connOn [] [⟨8, none⟩, ⟨2, none⟩]).WriteStream [7, 9] = .ret ((2, none), qc') ∧
      qc'.internalConn = some st' ∧ st'.sent = [0, 0, 0, 0, 0, 0, 0, 2, 7, 9] ∧
      st'.writes = [] := by
  obtain ⟨qc', st', h1, h2, h3, h4, _⟩ :=
    (WriteStream_wire_format (connOn [] [⟨8, none⟩, ⟨2, none⟩]) [7, 9] _ ⟨8, none⟩ [⟨2, none⟩]
      rfl rfl (by decide)).2.1 ⟨2, none⟩ [] rfl (by decide) rfl (by decide) rfl
  exact ⟨qc', st', h1, h2, h3, h4⟩

end QUICReliableConn

/-! ## Where the code departs from the specification -/

namespace QUICReliableConn

/-- C1: `WriteStream` puts the prefix `0 0 0 0 0 0 0 1` and the payload `7` on
the wire.  When the transport delivers the prefix in one read and the payload
in the next, `ReadStream` returns 1 and no error, but the caller's buffer
still holds what it held; when the transport delivers four bytes per read,
`ReadStream` decodes the length from the first four bytes alone and returns 0. -/
theorem ReadStream_does_not_fill_caller_buffer :
    ((connOn [] [⟨8, none⟩, ⟨1, none⟩]).WriteStream [7]).map
        (fun r => r.2.internalConn.map Stream.sent) = .ret (some [0, 0, 0, 0, 0, 0, 0, 1, 7]) ∧
    ((connOn [⟨[0, 0, 0, 0, 0, 0, 0, 1], none⟩, ⟨[7], none⟩] []).ReadStream [0]).map
        (fun r => (r.1, r.2.1)) = .ret ((1, none), [0]) ∧
    ((connOn [⟨[0, 0, 0, 0], none⟩, ⟨[0, 0, 0, 1], none⟩, ⟨[7], none⟩] []).ReadStream [0]).map
        (fun r => (r.1, r.2.1)) = .ret ((0, none), [0]) := by
  have h8 : List.replicate 8 (0 : Byte) = [0, 0, 0, 0, 0, 0, 0, 0] := rfl
  refine ⟨by decide, ?_, ?_⟩
  · simp [ReadStream, ReadStream.loop, connOn, QUICReliableConn.Read, Stream.Read, makeBytes,
      maxAlloc, Uint64, copyAt, readBudget, QUICReliableConn.zero, bind, Run.bind, pure, Run.map,
      -List.reduceReplicate]
  · simp [ReadStream, ReadStream.loop, connOn, QUICReliableConn.Read, Stream.Read, makeBytes,
      maxAlloc, Uint64, copyAt, readBudget, QUICReliableConn.zero, bind, Run.bind, pure, Run.map,
      h8, -List.reduceReplicate]

/-- C10: two messages, `7` and `9`, are on the stream; the transport delivers
the first prefix in one read of 8 bytes and then, in one read of 9 bytes, the
first payload together with the second prefix.  The copy `b[0:9]` into the
one-byte buffer panics. -/
theorem ReadStream_slice_bounds_panic :
    (connOn [⟨[0, 0, 0, 0, 0, 0, 0, 1], none⟩, ⟨[7, 0, 0, 0, 0, 0, 0, 0, 1], none⟩,
             ⟨[9], none⟩] []).ReadStream [0] = .panics .sliceBounds := by
  simp [ReadStream, ReadStream.loop, connOn, QUICReliableConn.Read, Stream.Read, makeBytes,
    maxAlloc, Uint64, copyAt, readBudget, QUICReliableConn.zero, bind, Run.bind, pure,
    -List.reduceReplicate]

/-- C8: a `Read` to which the transport hands 5 bytes together with an error
returns 5 and leaves `ReadBytes` and `ReadPackets` at 0, whereas a `Write` of
which the transport takes 3 bytes and reports an error counts 3 bytes and one
packet. -/
theorem Read_with_error_is_not_counted :
    ((connOn [⟨[1, 2, 3, 4, 5], some ⟨7⟩⟩] []).Read [0, 0, 0, 0, 0, 0, 0, 0]).map
        (fun r => (r.1.1, r.1.2.1, r.2.metrics)) = .ret (5, some ⟨7⟩, ⟨0, 0, 0, 0⟩) ∧
    ((connOn [] [⟨3, some ⟨7⟩⟩]).Write [1, 2, 3, 4, 5]).map
        (fun r => (r.1.1, r.1.2, r.2.metrics)) = .ret (3, some ⟨7⟩, ⟨0, 0, 3, 1⟩) := by
  constructor <;> decide

end QUICReliableConn

namespace QUICSocket

/-- C6: on a fresh socket whose address parses, a `Listen` whose bind fails
returns the error, and the listen-side list, empty before the call, holds the
new connection after it. -/
theorem Listen_bind_failure_grows_list :
    (NewQUICSocket "addr").sock.listenConns = [] ∧
    (Listen demoExtern ⟨some ⟨6⟩, .err ⟨6⟩⟩ (NewQUICSocket "addr")).map
        (fun r => (r.1, r.2.sock.listenConns, r.2.sock.dialConns)) =
      .ret (some ⟨6⟩, [0], []) := by
  constructor <;> decide

end QUICSocket

/-! ## DialAll and the handshake -/

namespace QUICSocket

/-- C4: on a socket whose first listen-side connection is `lp` and whose
accept loop cannot fail, when the dial of every path succeeds, `DialAll`
returns no error and the list `lp :: dialed` of length `k + 1`: element 0 is
the bootstrap connection, still first in the listen-side list, and element
`j + 1` is the connection dialed over path `j`; the dial-side list has grown
by `dialed`, which is what `GetDialConnections` then returns after the
connections that were there before.  This holds however the iterations of
the accept loop are scheduled between the dials. -/
theorem DialAll_result_shape (x : Extern) (envs : Nat → DialEnv) (bg : Nat → Nat) (w : World)
    (remote : UDPAddr) (paths : List Path) (options : DialOptions) (lp : ConnPtr)
    (hok : AcceptsOk lp w)
    (hdial : ∀ (j : Nat) (v : Path), paths[j]? = some v → ∀ w0 : World,
      w0.sock.localAddr = w.sock.localAddr →
      ∃ conn w1, Dial x (envs j) w0 remote v options = .ret (.ok conn, w1)) :
    ∃ dialed w', DialAll x envs bg w remote paths options = .ret (.ok (lp :: dialed), w') ∧
      w.sock.listenConns.head? = some lp ∧
      w'.sock.listenConns.head? = some lp ∧
      (lp :: dialed).length = paths.length + 1 ∧
      (∀ (j : Nat) (v : Path), paths[j]? = some v →
        ∃ (q : ConnPtr) (c : QUICReliableConn),
          (lp :: dialed)[j + 1]? = some q ∧ w'.heap[q]? = some c ∧ c.path = some v) ∧
      w'.sock.dialConns = w.sock.dialConns ++ dialed ∧
      (GetDialConnections w').1 = w.sock.dialConns ++ dialed := by
  obtain ⟨ls, hls⟩ := hok.head
  have hdial' : ∀ (j : Nat) (v : Path), paths[j]? = some v → ∀ w0 : World,
      w0.sock.localAddr = w.sock.localAddr →
      ∃ conn w1, Dial x (envs (0 + j)) w0 remote v options = .ret (.ok conn, w1) := by
    intro j v hj w0 hw0
    rw [Nat.zero_add]
    exact hdial j v hj w0 hw0
  obtain ⟨dialed, w', hl, hlen, hdc, hok', _, _, _, _, hpaths⟩ :=
    DialAll_loop_spec x envs bg lp remote options paths 0 true w [lp] hok hdial'
  obtain ⟨ls', hls'⟩ := hok'.head
  refine ⟨dialed, w', ?_, by rw [hls]; rfl, by rw [hls']; rfl, by simp [hlen], ?_, hdc, ?_⟩
  · unfold DialAll
    rw [hls]
    simp only
    rw [hl]
    rfl
  · intro j v hj
    obtain ⟨q, c, st, hq, hc, hp, _⟩ := hpaths j v hj
    exact ⟨q, c, by simpa using hq, hc, hp⟩
  · simp [GetDialConnections, foldl_append_singleton, hdc]

/-- C4, on a fresh listening socket with three paths, one iteration of the
accept loop scheduled before each dial: the result has length 4 and
`GetDialConnections` has length 3. -/
theorem DialAll_result_shape_witness :
    Listen demoExtern listenOkEnv (NewQUICSocket "addr") = .ret (none, listeningWorld) ∧
    ∃ dialed w', DialAll demoExtern (fun _ => dialOkEnv none) (fun _ => 1) listeningWorld
        demoRemote [⟨1⟩, ⟨2⟩, ⟨3⟩] ⟨true⟩ = .ret (.ok (0 :: dialed), w') ∧
      (0 :: dialed).length = 4 ∧ (GetDialConnections w').1.length = 3 := by
  refine ⟨by decide, ?_⟩
  have hok : AcceptsOk 0 listeningWorld := by
    refine ⟨⟨[], rfl⟩, ⟨_, _, rfl, rfl, ?_⟩, ⟨demoLocal, rfl⟩⟩
    intro r hr
    simp only [List.mem_cons, List.mem_singleton, List.not_mem_nil, or_false, or_self] at hr
    subst hr
    exact ⟨_, _, rfl, rfl⟩
  have hdial : ∀ (j : Nat) (v : Path), [(⟨1⟩ : Path), ⟨2⟩, ⟨3⟩][j]? = some v → ∀ w0 : World,
      w0.sock.localAddr = listeningWorld.sock.localAddr →
      ∃ conn w1, Dial demoExtern (dialOkEnv none) w0 demoRemote v ⟨true⟩ =
        .ret (.ok conn, w1) := by
    intro j v hj w0 hw0
    have hla : w0.sock.localAddr = some demoLocal := hw0
    match j, hj with
    | 0, hj =>
      cases hj
      exact Dial_ok_of_dialBody hla (c := _) rfl
    | 1, hj =>
      cases hj
      exact Dial_ok_of_dialBody hla (c := _) rfl
    | 2, hj =>
      cases hj
      exact Dial_ok_of_dialBody hla (c := _) rfl
    | j + 3, hj => simp at hj
  obtain ⟨dialed, w', h1, _, _, h4, _, _, h7⟩ :=
    DialAll_result_shape demoExtern (fun _ => dialOkEnv none) (fun _ => 1) listeningWorld
      demoRemote [⟨1⟩, ⟨2⟩, ⟨3⟩] ⟨true⟩ 0 hok hdial
  refine ⟨dialed, w', h1, h4, ?_⟩
  rw [h7]
  have h5 : dialed.length = 3 := by simpa using h4
  simp [listeningWorld, h5]

/-- C3: the dialer's socket has local address `D` and its `Dial` over path `π`
with `SendAddrPacket` set succeeds, on a transport that opens fresh streams and
has taken the whole serialized packet onto the dialed stream; the listener's
first accepted stream hands those bytes to the single read of
`WaitForDialIn`, and they fit in the `PACKET_SIZE` buffer.  Then, with a gob
codec that decodes what it encoded, `WaitForDialIn(true)` returns `D` and no
error, and the bootstrap connection, still first in the listen-side list, has
path `π`, however many iterations of the accept loop run in between. -/
theorem handshake_round_trip (x : Extern) (env : DialEnv) (wD wD' : World)
    (remote D : UDPAddr) (π : Path) (conn : ConnPtr) (cD : QUICReliableConn) (stD : Stream)
    (bg : Nat) (wL : World) (lp : ConnPtr) (c : QUICReliableConn) (l : Listener)
    (sess : Session) (accs : List (Res Session)) (st : Stream) (rs : List ReadResult)
    (hcodec : ∀ (p : DialPacketQuic) (pad : List Byte), (x.gobEncode p).2 = none →
      x.gobDecode ((x.gobEncode p).1 ++ pad) = .ok p)
    (hfresh : ∀ a session s0, env.quicDial a = .ok session → session.openStream = .ok s0 →
      s0.sent = [])
    (hD : wD.sock.localAddr = some D)
    (hdial : Dial x env wD remote π ⟨true⟩ = .ret (.ok conn, wD'))
    (hconn : wD'.heap[conn]? = some cD) (hstD : cD.internalConn = some stD)
    (hwhole : stD.sent.length = (x.gobEncode ⟨D, π⟩).1.length)
    (hok : AcceptsOk lp wL)
    (hc : wL.heap[lp]? = some c) (hl : c.listener = some l)
    (hacc : l.accepts = .ok sess :: accs) (hst : sess.acceptStream = .ok st)
    (hread : st.reads = ⟨stD.sent, none⟩ :: rs)
    (hsize : stD.sent.length ≤ x.PACKET_SIZE) :
    ∃ wL' c', WaitForDialIn x bg wL true = .ret (.ok (some D), wL') ∧
      wL'.sock.listenConns.head? = some lp ∧
      wL'.heap[lp]? = some c' ∧ c'.path = some π := by
  obtain ⟨henc, session, s0, r, rest, c0, st0, hq, ho, _, hc0, hi0, hsent⟩ :=
    Dial_handshake_sent hD hdial
  rw [hconn] at hc0
  cases hc0
  rw [hstD] at hi0
  cases hi0
  rw [hfresh _ session s0 hq ho, List.nil_append] at hsent
  have hbytes : stD.sent = (x.gobEncode ⟨D, π⟩).1 := by
    rw [hsent]
    apply List.take_of_length_le
    have h1 := hwhole
    rw [hsent, List.length_take] at h1
    omega
  have hdec : x.gobDecode
      (stD.sent ++ (List.replicate x.PACKET_SIZE 0).drop stD.sent.length) =
      .ok ⟨D, π⟩ := by
    rw [hbytes]
    exact hcodec ⟨D, π⟩ _ henc
  exact WaitForDialIn_handshake x bg wL lp c l sess accs st stD.sent rs ⟨D, π⟩ hok hc hl hacc hst
    hread hsize hdec

/-- C3, with the six-byte codec: the dialer at `demoLocal` dials over path 7,
the listener's stream carries the six bytes, and `WaitForDialIn(true)` returns
`demoLocal` with path 7 stored on connection 0. -/
theorem handshake_round_trip_witness :
    ∃ wL' c', WaitForDialIn demoExtern 1 dialedInWorld true = .ret (.ok (some demoLocal), wL') ∧
      wL'.sock.listenConns.head? = some 0 ∧
      wL'.heap[0]? = some c' ∧ c'.path = some ⟨7⟩ := by
  have hok : AcceptsOk 0 dialedInWorld := by
    refine ⟨⟨[], rfl⟩, ⟨_, _, rfl, rfl, ?_⟩, ⟨demoRemote, rfl⟩⟩
    intro r hr
    simp only [List.mem_singleton] at hr
    subst hr
    exact ⟨_, _, rfl, rfl⟩
  have hfresh : ∀ a session s0, (dialOkEnv none).quicDial a = .ok session →
      session.openStream = .ok s0 → s0.sent = [] := by
    intro a session s0 h1 h2
    simp only [dialOkEnv] at h1
    injection h1 with h1
    subst h1
    injection h2 with h2
    subst h2
    rfl
  exact handshake_round_trip demoExtern (dialOkEnv none) dialerWorld _ demoRemote demoLocal ⟨7⟩ 0
    _ _ 1 dialedInWorld 0 _ _ _ [] _ [] byteCodec_round_trip hfresh rfl rfl rfl rfl rfl hok rfl
    rfl rfl rfl rfl (by decide)

end QUICSocket
end ScionPathDiscovery
